import Mathlib

/-!
# MakeIngress for a DomainMapping

A shallow embedding of
`vendor/knative.dev/serving/pkg/reconciler/domainmapping/resources/ingress.go`
(function `MakeIngress`) and of the library pieces it calls.

* Go strings are `String`; a Go slice that is only appended to or built from a
  literal is a `List`; a slice that is stored without being read (`tls`) is an
  `Option (List _)`, `none` being the nil slice.
* A Go `map[string]string` is a list of key/value entries, read by `GoMap.get?`
  (the first entry of a key is its binding) and written by `GoMap.set`.  A nil
  map and an empty map both have no entry and are `[]`.
* A Go pointer is an `Option`; dereferencing nil is a panic, modelled by `none`
  as the result of the function.
* Constants, tables and functions of other packages that `MakeIngress` only
  passes around are the fields of `Env`.
-/

namespace Resources

/-! ## Go maps from string to string -/

/-- A Go `map[string]string`, as the list of its entries. -/
abbrev GoMap := List (String × String)

/-- The read `v, ok := m[k]`: the value bound to `k`, if any. -/
def GoMap.get? : GoMap → String → Option String
  | [], _ => none
  | (k0, v0) :: rest, k => if k0 = k then some v0 else GoMap.get? rest k

/-- The write `m[k] = v`: rebinds `k` where it is bound, adds an entry otherwise. -/
def GoMap.set : GoMap → String → String → GoMap
  | [], k, v => [(k, v)]
  | (k0, v0) :: rest, k, v =>
    if k0 = k then (k, v) :: rest else (k0, v0) :: GoMap.set rest k v

/-- The keys of the entries of a map. -/
def GoMap.keys (m : GoMap) : List String := m.map Prod.fst

/-- The loop `for key, value := range m { out[key] = value }`. -/
def GoMap.rangeSet (out m : GoMap) : GoMap :=
  m.foldr (fun kv acc => GoMap.set acc kv.1 kv.2) out

/-! ## Sets of strings (`k8s.io/apimachinery/pkg/util/sets`) -/

/-- Modelled from the spec: the type `sets.String` of
`k8s.io/apimachinery/pkg/util/sets`, whose declaration is not in `ingress.go`;
the spec speaks of "a singleton set containing the intent's name" and of keys
"present in a fixed exclusion set".  A set is the list of its members. -/
abbrev StringSet := List String

/-- Modelled from the spec: `sets.NewString(items...)`, the set of the given
items (declared in that package, not in `ingress.go`). -/
def NewString (items : List String) : StringSet := items

/-- Modelled from the spec: the method `sets.String.Has`, membership of a key
in the set (declared in that package, not in `ingress.go`). -/
def StringSet.Has (s : StringSet) (item : String) : Bool := decide (item ∈ s)

/-! ## `knative.dev/pkg/kmeta` -/

/-- Modelled from the spec: `kmeta.UnionMaps` (package `knative.dev/pkg/kmeta`,
not in `ingress.go`), the union of the given maps in a fresh map, where on a key
collision the value of the later map wins: "union in the intent's annotations
(intent values win on key collision)" for `UnionMaps(fixed, annotations)` and
"system labels win on key collision" for `UnionMaps(labels, system)`. -/
def UnionMaps (maps : List GoMap) : GoMap :=
  maps.foldl GoMap.rangeSet []

/-- Modelled from the spec: `kmeta.FilterMap` (package `knative.dev/pkg/kmeta`,
not in `ingress.go`), a fresh copy of the map without the entries whose key
satisfies the filter: "filter out any key present in a fixed exclusion set". -/
def FilterMap (m : GoMap) (filter : String → Bool) : GoMap :=
  m.foldr (fun kv acc => if filter kv.1 then acc else GoMap.set acc kv.1 kv.2) []

/-! ## Data model -/

/-- Modelled from the spec: the type `intstr.IntOrString` of
`k8s.io/apimachinery/pkg/util/intstr` (declared outside `ingress.go`): a port
is either an integer or a name. -/
inductive IntOrString where
  | int (v : Int)
  | str (s : String)
deriving DecidableEq, Repr

/-- Modelled from the spec: `intstr.FromInt`, the integer port ("fixed port
80"); declared in that package, not in `ingress.go`. -/
def FromInt (v : Int) : IntOrString := IntOrString.int v

/-- The fields of `servingv1alpha1.DomainMapping` that `MakeIngress` reads. -/
structure DomainMapping where
  Name : String
  Namespace : String
  UID : String
  Labels : GoMap
  Annotations : GoMap
deriving DecidableEq, Repr

/-- Modelled from the spec: `metav1.OwnerReference` (declared outside
`ingress.go`), "an explicit owner-link field (kind/name/UID/namespace of the owning
entity plus a controller-owner boolean)".  `Controller` is a `*bool`. -/
structure OwnerReference where
  Kind : String
  Name : String
  UID : String
  Namespace : String
  Controller : Option Bool
deriving DecidableEq, Repr

/-- The type `netv1alpha1.IngressTLS`. -/
structure IngressTLS where
  Hosts : List String
  SecretName : String
  SecretNamespace : String
deriving DecidableEq, Repr

/-- The type `netv1alpha1.IngressBackend`. -/
structure IngressBackend where
  ServiceNamespace : String
  ServiceName : String
  ServicePort : IntOrString
deriving DecidableEq, Repr

/-- The type `netv1alpha1.IngressBackendSplit`; the backend is an embedded
struct in Go. -/
structure IngressBackendSplit where
  IngressBackend : IngressBackend
  Percent : Int
  AppendHeaders : GoMap
deriving DecidableEq, Repr

/-- The type `netv1alpha1.HTTPIngressPath`.  `Headers` maps a header name to
the exact value it has to match. -/
structure HTTPIngressPath where
  Path : String
  RewriteHost : String
  Headers : GoMap
  AppendHeaders : GoMap
  Splits : List IngressBackendSplit
deriving DecidableEq, Repr

/-- The type `netv1alpha1.HTTPIngressRuleValue`. -/
structure HTTPIngressRuleValue where
  Paths : List HTTPIngressPath
deriving DecidableEq, Repr

/-- The type `netv1alpha1.IngressRule`; `HTTP` is a pointer. -/
structure IngressRule where
  Hosts : List String
  Visibility : String
  HTTP : Option HTTPIngressRuleValue
deriving DecidableEq, Repr

/-- The type `netv1alpha1.IngressSpec`; `HTTPOption` is a string type. -/
structure IngressSpec where
  TLS : Option (List IngressTLS)
  Rules : List IngressRule
  HTTPOption : String
deriving DecidableEq, Repr

/-- The fields of `metav1.ObjectMeta` that `MakeIngress` sets. -/
structure ObjectMeta where
  Name : String
  Namespace : String
  Annotations : GoMap
  Labels : GoMap
  OwnerReferences : List OwnerReference
deriving DecidableEq, Repr

/-- The type `netv1alpha1.Ingress`. -/
structure Ingress where
  ObjectMeta : ObjectMeta
  Spec : IngressSpec
deriving DecidableEq, Repr

/-- What `MakeIngress` takes from the packages it imports, none of which is
declared in `ingress.go`: the constants `netapi.IngressClassAnnotationKey`,
`serving.DomainMappingUIDLabelKey`, `serving.DomainMappingNamespaceLabelKey`,
`netheader.OriginalHostKey`, `netv1alpha1.IngressVisibilityExternalIP`, the
kind of a DomainMapping, the table `routeresources.ExcludedAnnotations`, and
the functions `kmeta.ChildName` and `routeresources.MakeACMEIngressPaths`.
`Challenge` is the type `netv1alpha1.HTTP01Challenge`, which `MakeIngress`
never inspects. -/
structure Env (Challenge : Type) where
  IngressClassAnnotationKey : String
  DomainMappingUIDLabelKey : String
  DomainMappingNamespaceLabelKey : String
  OriginalHostKey : String
  IngressVisibilityExternalIP : String
  DomainMappingKind : String
  ExcludedAnnotations : StringSet
  ChildName : String → String → String
  MakeACMEIngressPaths :
    List Challenge → StringSet → List HTTPIngressPath × List String

/-- Modelled from the spec: `kmeta.NewControllerRef` (package
`knative.dev/pkg/kmeta`, not in `ingress.go`): "one owner-reference identifying
the intent as controller-owner", with the kind, name, UID and namespace of
the owning entity and the controller flag set. -/
def NewControllerRef {Challenge : Type} (E : Env Challenge) (dm : DomainMapping) :
    Option OwnerReference :=
  some
    { Kind := E.DomainMappingKind
      Name := dm.Name
      UID := dm.UID
      Namespace := dm.Namespace
      Controller := some true }

/-! ## The function -/

/-- The function `MakeIngress` of `ingress.go`.  `dm` is a pointer: on nil the
first dereference panics and nothing is returned.  `acmeChallenges` is the
variadic argument. -/
def MakeIngress {Challenge : Type} (E : Env Challenge) (dm : Option DomainMapping)
    (backendServiceName hostName ingressClass : String) (httpOption : String)
    (tls : Option (List IngressTLS)) (acmeChallenges : List Challenge) :
    Option Ingress :=
  match dm with
  | none => none
  | some dm =>
    match E.MakeACMEIngressPaths acmeChallenges (NewString [dm.Name]) with
    | (paths, hosts) =>
      match NewControllerRef E dm with
      | none => none
      | some controllerRef =>
        some
          { ObjectMeta :=
              { Name := E.ChildName dm.Name ""
                Namespace := dm.Namespace
                Annotations :=
                  FilterMap
                    (UnionMaps [[(E.IngressClassAnnotationKey, ingressClass)],
                      dm.Annotations])
                    E.ExcludedAnnotations.Has
                Labels :=
                  UnionMaps [dm.Labels,
                    [(E.DomainMappingUIDLabelKey, dm.UID),
                     (E.DomainMappingNamespaceLabelKey, dm.Namespace)]]
                OwnerReferences := [controllerRef] }
            Spec :=
              { HTTPOption := httpOption
                TLS := tls
                Rules :=
                  [{ Hosts := hosts ++ [dm.Name]
                     Visibility := E.IngressVisibilityExternalIP
                     HTTP := some
                       { Paths := paths ++
                           [{ Path := ""
                              RewriteHost := hostName
                              Headers := []
                              AppendHeaders := []
                              Splits :=
                                [{ Percent := 100
                                   AppendHeaders := [(E.OriginalHostKey, dm.Name)]
                                   IngressBackend :=
                                     { ServiceNamespace := dm.Namespace
                                       ServiceName := backendServiceName
                                       ServicePort := FromInt 80 } }] }] } }] } }

/-! ## The default entry, as the specification describes it -/

/-- The single default entry in the words of the specification: "rewrite-host
= the resolved target host, one traffic split of 100% directed at the backend
service (namespace + name + fixed port 80), carrying one injected header
recording the original requested hostname"; it constrains neither the request
path nor the request headers. -/
def defaultEntry {Challenge : Type} (E : Env Challenge) (dm : DomainMapping)
    (backendServiceName hostName : String) : HTTPIngressPath :=
  { Path := ""
    RewriteHost := hostName
    Headers := []
    AppendHeaders := []
    Splits :=
      [{ IngressBackend :=
           { ServiceNamespace := dm.Namespace
             ServiceName := backendServiceName
             ServicePort := IntOrString.int 80 }
         Percent := 100
         AppendHeaders := [(E.OriginalHostKey, dm.Name)] }] }

/-! ## A concrete environment and concrete intents -/

/-- A challenge descriptor for the concrete environment: the host and the path
of the challenge URL and the name of the solver service. -/
structure SolverChallenge where
  Host : String
  Path : String
  ServiceName : String
deriving DecidableEq, Repr

/-- A path helper for the concrete environment: one path entry and one host
for every challenge whose host is in the given set. -/
def solverPaths (cs : List SolverChallenge) (domains : StringSet) :
    List HTTPIngressPath × List String :=
  let kept := cs.filter (fun ch => domains.Has ch.Host)
  (kept.map (fun ch =>
      { Path := ch.Path
        RewriteHost := ""
        Headers := []
        AppendHeaders := []
        Splits :=
          [{ IngressBackend :=
               { ServiceNamespace := "cert-manager"
                 ServiceName := ch.ServiceName
                 ServicePort := IntOrString.int 8089 }
             Percent := 100
             AppendHeaders := [] }] }),
   kept.map (fun ch => ch.Host))

/-- A concrete environment: the keys are those of a Knative installation, the
exclusion set holds the last-applied-configuration key. -/
def knativeEnv : Env SolverChallenge :=
  { IngressClassAnnotationKey := "networking.knative.dev/ingress.class"
    DomainMappingUIDLabelKey := "serving.knative.dev/domainMappingUID"
    DomainMappingNamespaceLabelKey := "serving.knative.dev/domainMappingNamespace"
    OriginalHostKey := "K-Original-Host"
    IngressVisibilityExternalIP := "ExternalIP"
    DomainMappingKind := "DomainMapping"
    ExcludedAnnotations := ["kubectl.kubernetes.io/last-applied-configuration"]
    ChildName := fun parent suffix => parent ++ suffix
    MakeACMEIngressPaths := solverPaths }

/-- The environment `knativeEnv` with the ingress-class key put into the
exclusion set as well. -/
def strictEnv : Env SolverChallenge :=
  { knativeEnv with
    ExcludedAnnotations :=
      ["kubectl.kubernetes.io/last-applied-configuration",
       "networking.knative.dev/ingress.class"] }

/-- An intent whose labels and annotations use the reserved keys. -/
def spoofedIntent : DomainMapping :=
  { Name := "a.example.com"
    Namespace := "ns"
    UID := "u1"
    Labels :=
      [("app", "shop"),
       ("serving.knative.dev/domainMappingUID", "forged"),
       ("serving.knative.dev/domainMappingNamespace", "kube-system")]
    Annotations :=
      [("networking.knative.dev/ingress.class", "custom.ingress"),
       ("kubectl.kubernetes.io/last-applied-configuration", "blob"),
       ("team", "payments")] }

/-- An intent without labels and annotations. -/
def plainIntent : DomainMapping :=
  { Name := "a.example.com"
    Namespace := "ns"
    UID := "u1"
    Labels := []
    Annotations := [] }

/-- Two pending challenges for the host of `plainIntent` and one for another
host. -/
def pendingChallenges : List SolverChallenge :=
  [{ Host := "a.example.com", Path := "/.well-known/acme-challenge/t1", ServiceName := "cm-1" },
   { Host := "b.example.com", Path := "/.well-known/acme-challenge/t2", ServiceName := "cm-2" },
   { Host := "a.example.com", Path := "/.well-known/acme-challenge/t3", ServiceName := "cm-3" }]

/-- An intent with the name of `plainIntent` in another namespace, with another
UID, other labels and other annotations. -/
def movedIntent : DomainMapping :=
  { Name := "a.example.com"
    Namespace := "prod"
    UID := "u2"
    Labels := [("tier", "web")]
    Annotations := [("owner", "ops")] }

/-! ## The ACME-path helper, as the specification describes it -/

/-- Modelled from the spec: `routeresources.MakeACMEIngressPaths` (package
`knative.dev/serving/pkg/reconciler/route/resources`, not in `ingress.go`), the
"external ACME-path helper" `GeneratePaths(challenges, excludedHosts) →
(paths, hosts)`, "both ordered and possibly empty".  Every challenge
descriptor gives one challenge path, in order ("two challenge paths").  The
hosts are the hosts of the descriptors in the same order, without the hosts of
the given set (`excludedHosts`): `MakeIngress` passes the singleton set of the
intent's name and appends that name itself.  What one descriptor is rendered
to is left open (`pathOf`, `hostOf`). -/
def MakeACMEIngressPaths {Challenge : Type} (pathOf : Challenge → HTTPIngressPath)
    (hostOf : Challenge → String) (acmeChallenges : List Challenge)
    (domains : StringSet) : List HTTPIngressPath × List String :=
  (acmeChallenges.map pathOf,
   (acmeChallenges.map hostOf).filter (fun host => !domains.Has host))

/-- The environment `E` with the helper of the specification in the place of
its own. -/
def withSpecHelper {Challenge : Type} (E : Env Challenge)
    (pathOf : Challenge → HTTPIngressPath) (hostOf : Challenge → String) :
    Env Challenge :=
  { E with MakeACMEIngressPaths := MakeACMEIngressPaths pathOf hostOf }

/-- The path entry of a challenge in the concrete environment. -/
def challengePath (ch : SolverChallenge) : HTTPIngressPath :=
  { Path := ch.Path
    RewriteHost := ""
    Headers := []
    AppendHeaders := []
    Splits :=
      [{ IngressBackend :=
           { ServiceNamespace := "cert-manager"
             ServiceName := ch.ServiceName
             ServicePort := IntOrString.int 8089 }
         Percent := 100
         AppendHeaders := [] }] }

/-- The host of a challenge in the concrete environment. -/
def challengeHost (ch : SolverChallenge) : String := ch.Host

/-- Two challenge descriptors, for two hosts. -/
def twoChallenges : List SolverChallenge :=
  [{ Host := "c1.example.com", Path := "/.well-known/acme-challenge/t1", ServiceName := "cm-1" },
   { Host := "c2.example.com", Path := "/.well-known/acme-challenge/t2", ServiceName := "cm-2" }]

/-- Two challenge descriptors for the host of `plainIntent` itself. -/
def ownHostChallenges : List SolverChallenge :=
  [{ Host := "a.example.com", Path := "/.well-known/acme-challenge/t1", ServiceName := "cm-1" },
   { Host := "a.example.com", Path := "/.well-known/acme-challenge/t2", ServiceName := "cm-2" }]

/-! ## The maps of the intent by reference

In Go a map is a reference to a map object, and `dm` points to a struct that
holds two such references.  To speak of what a call leaves in the intent, the
function is embedded a second time, over a store that holds the struct and
the map objects; reading the references of its result gives the result of
`MakeIngress`. -/

/-- A Go map value: nil, or the address of a map object. -/
abbrev MapRef := Option Nat

/-- Whether a map value is nil or the address of one of the first `n` map
objects. -/
def MapRef.below (r : MapRef) (n : Nat) : Bool :=
  match r with
  | none => true
  | some a => decide (a < n)

/-- The struct `dm` points to, its two maps held by reference. -/
structure DomainMappingObj where
  Name : String
  Namespace : String
  UID : String
  Labels : MapRef
  Annotations : MapRef
deriving DecidableEq, Repr

/-- The memory a call can reach through `dm`: the struct `dm` points to, and
the map objects by address. -/
structure Store where
  intent : DomainMappingObj
  maps : List GoMap
deriving DecidableEq, Repr

/-- The entries of the map behind a map value; a nil map has none. -/
def Store.read (st : Store) (r : MapRef) : GoMap :=
  match r with
  | none => []
  | some a => st.maps.getD a []

/-- A map literal or `make(map[string]string)`: a new map object with the
given entries, at a new address. -/
def Store.alloc (st : Store) (m : GoMap) : Store × Nat :=
  ({ st with maps := st.maps ++ [m] }, st.maps.length)

/-- The map object at address `a` after writes that leave it with the entries
`m`. -/
def Store.put (st : Store) (a : Nat) (m : GoMap) : Store :=
  { st with maps := st.maps.set a m }

/-- The intent as `MakeIngress` reads it: the fields of the struct and the
entries of its two maps. -/
def Store.snapshot (st : Store) : DomainMapping :=
  { Name := st.intent.Name
    Namespace := st.intent.Namespace
    UID := st.intent.UID
    Labels := st.read st.intent.Labels
    Annotations := st.read st.intent.Annotations }

/-- Modelled from the spec: `kmeta.UnionMaps` (package `knative.dev/pkg/kmeta`,
not in `ingress.go`) on map values: the union is written into a new map
object ("constructed fresh on each invocation", "allocates only local,
unshared output"), the given maps are only read, the later map winning. -/
def UnionMapsS (st : Store) (maps : List MapRef) : Store × MapRef :=
  match st.alloc [] with
  | (st1, out) =>
    (maps.foldl
       (fun s m => s.put out (GoMap.rangeSet (s.read (some out)) (s.read m))) st1,
     some out)

/-- Modelled from the spec: `kmeta.FilterMap` (package `knative.dev/pkg/kmeta`,
not in `ingress.go`) on map values: "a filtered copy", written into a new map
object; the given map is only read. -/
def FilterMapS (st : Store) (m : MapRef) (filter : String → Bool) : Store × MapRef :=
  match st.alloc [] with
  | (st1, ret) =>
    (st1.put ret
       ((st1.read m).foldr
         (fun kv acc => if filter kv.1 then acc else GoMap.set acc kv.1 kv.2)
         (st1.read (some ret))),
     some ret)

/-- The type `metav1.ObjectMeta` with its two maps held by reference. -/
structure ObjectMetaS where
  Name : String
  Namespace : String
  Annotations : MapRef
  Labels : MapRef
  OwnerReferences : List OwnerReference
deriving DecidableEq, Repr

/-- The type `netv1alpha1.Ingress` with the maps of its metadata held by
reference. -/
structure IngressS where
  ObjectMeta : ObjectMetaS
  Spec : IngressSpec
deriving DecidableEq, Repr

/-- The resource with the entries of the maps of its metadata read from the
store. -/
def IngressS.deref (r : IngressS) (st : Store) : Ingress :=
  { ObjectMeta :=
      { Name := r.ObjectMeta.Name
        Namespace := r.ObjectMeta.Namespace
        Annotations := st.read r.ObjectMeta.Annotations
        Labels := st.read r.ObjectMeta.Labels
        OwnerReferences := r.ObjectMeta.OwnerReferences }
    Spec := r.Spec }

/-- The function `MakeIngress` of `ingress.go` for a non-nil `dm`, over the
store that holds the struct `dm` points to: the steps of `MakeIngress` in the
order in which Go evaluates them, each reading the store the step before it
left.  The result is the resource and the store after the call. -/
def MakeIngressS {Challenge : Type} (E : Env Challenge) (st : Store)
    (backendServiceName hostName ingressClass : String) (httpOption : String)
    (tls : Option (List IngressTLS)) (acmeChallenges : List Challenge) :
    Option (IngressS × Store) :=
  match E.MakeACMEIngressPaths acmeChallenges (NewString [st.intent.Name]) with
  | (paths, hosts) =>
    match st.alloc [(E.IngressClassAnnotationKey, ingressClass)] with
    | (st1, classMap) =>
      match UnionMapsS st1 [some classMap, st1.intent.Annotations] with
      | (st2, merged) =>
        match FilterMapS st2 merged E.ExcludedAnnotations.Has with
        | (st3, annotations) =>
          match st3.alloc [(E.DomainMappingUIDLabelKey, st3.intent.UID),
              (E.DomainMappingNamespaceLabelKey, st3.intent.Namespace)] with
          | (st4, systemLabels) =>
            match UnionMapsS st4 [st4.intent.Labels, some systemLabels] with
            | (st5, labels) =>
              match NewControllerRef E st5.snapshot with
              | none => none
              | some controllerRef =>
                some
                  ({ ObjectMeta :=
                       { Name := E.ChildName st.intent.Name ""
                         Namespace := st.intent.Namespace
                         Annotations := annotations
                         Labels := labels
                         OwnerReferences := [controllerRef] }
                     Spec :=
                       { HTTPOption := httpOption
                         TLS := tls
                         Rules :=
                           [{ Hosts := hosts ++ [st5.intent.Name]
                              Visibility := E.IngressVisibilityExternalIP
                              HTTP := some
                                { Paths := paths ++
                                    [{ Path := ""
                                       RewriteHost := hostName
                                       Headers := []
                                       AppendHeaders := []
                                       Splits :=
                                         [{ Percent := 100
                                            AppendHeaders :=
                                              [(E.OriginalHostKey, st5.intent.Name)]
                                            IngressBackend :=
                                              { ServiceNamespace := st5.intent.Namespace
                                                ServiceName := backendServiceName
                                                ServicePort := FromInt 80 } }] }] } }] } },
                   st5)

/-- A store for `spoofedIntent`: its labels are the map object at address 1,
its annotations the map object at address 2; address 0 holds a map of another
owner. -/
def spoofedStore : Store :=
  { intent :=
      { Name := "a.example.com"
        Namespace := "ns"
        UID := "u1"
        Labels := some 1
        Annotations := some 2 }
    maps :=
      [[("unrelated", "map")],
       [("app", "shop"),
        ("serving.knative.dev/domainMappingUID", "forged"),
        ("serving.knative.dev/domainMappingNamespace", "kube-system")],
       [("networking.knative.dev/ingress.class", "custom.ingress"),
        ("kubectl.kubernetes.io/last-applied-configuration", "blob"),
        ("team", "payments")]] }

/-! ## Maps: reads after writes -/

theorem GoMap.get?_set (m : GoMap) (k v k1 : String) :
    GoMap.get? (GoMap.set m k v) k1 = if k = k1 then some v else GoMap.get? m k1 := by
  induction m with
  | nil => simp [GoMap.set, GoMap.get?]
  | cons e rest ih =>
    obtain ⟨k0, v0⟩ := e
    by_cases h0 : k0 = k
    · subst h0
      by_cases h1 : k0 = k1
      · simp [GoMap.set, GoMap.get?, h1]
      · simp [GoMap.set, GoMap.get?, h1]
    · by_cases h1 : k0 = k1
      · subst h1
        have h2 : ¬ k = k0 := fun h => h0 h.symm
        simp [GoMap.set, GoMap.get?, h0, h2]
      · simp [GoMap.set, GoMap.get?, h0, h1, ih]

theorem GoMap.mem_keys_set (m : GoMap) (k v k1 : String) :
    k1 ∈ GoMap.keys (GoMap.set m k v) ↔ k1 = k ∨ k1 ∈ GoMap.keys m := by
  induction m with
  | nil => simp [GoMap.set, GoMap.keys]
  | cons e rest ih =>
    obtain ⟨k0, v0⟩ := e
    by_cases h0 : k0 = k
    · subst h0
      simp [GoMap.set, GoMap.keys]
    · have ih1 : k1 ∈ List.map Prod.fst (GoMap.set rest k v) ↔
          k1 = k ∨ k1 ∈ List.map Prod.fst rest := ih
      simp only [GoMap.set, GoMap.keys, h0, if_false, List.map_cons, List.mem_cons, ih1]
      tauto

theorem GoMap.get?_eq_none_iff (m : GoMap) (k : String) :
    GoMap.get? m k = none ↔ k ∉ GoMap.keys m := by
  induction m with
  | nil => simp [GoMap.get?, GoMap.keys]
  | cons e rest ih =>
    obtain ⟨k0, v0⟩ := e
    have ih1 : GoMap.get? rest k = none ↔ k ∉ List.map Prod.fst rest := ih
    by_cases h0 : k0 = k
    · subst h0
      simp [GoMap.get?, GoMap.keys]
    · have h1 : ¬ k = k0 := fun h => h0 h.symm
      simp [GoMap.get?, GoMap.keys, h0, h1, ih1]

theorem GoMap.nodup_keys_set (m : GoMap) (k v : String)
    (hm : (GoMap.keys m).Nodup) : (GoMap.keys (GoMap.set m k v)).Nodup := by
  induction m with
  | nil => simp [GoMap.set, GoMap.keys]
  | cons e rest ih =>
    obtain ⟨k0, v0⟩ := e
    have hm1 : k0 ∉ GoMap.keys rest ∧ (GoMap.keys rest).Nodup := by
      simpa [GoMap.keys] using hm
    by_cases h0 : k0 = k
    · subst h0
      simpa [GoMap.set, GoMap.keys] using hm
    · have hk : k0 ∉ GoMap.keys (GoMap.set rest k v) := by
        rw [GoMap.mem_keys_set]
        rintro (h | h)
        · exact h0 h
        · exact hm1.1 h
      have hn : (GoMap.keys (GoMap.set rest k v)).Nodup := ih hm1.2
      have e1 : GoMap.keys (GoMap.set ((k0, v0) :: rest) k v) =
          k0 :: GoMap.keys (GoMap.set rest k v) := by
        simp [GoMap.set, GoMap.keys, h0]
      rw [e1]
      exact List.nodup_cons.mpr ⟨hk, hn⟩

theorem GoMap.get?_rangeSet (out m : GoMap) (k : String) :
    GoMap.get? (GoMap.rangeSet out m) k =
      match GoMap.get? m k with
      | some v => some v
      | none => GoMap.get? out k := by
  induction m with
  | nil => simp [GoMap.rangeSet, GoMap.get?]
  | cons e rest ih =>
    obtain ⟨k0, v0⟩ := e
    have e1 : GoMap.rangeSet out ((k0, v0) :: rest) =
        GoMap.set (GoMap.rangeSet out rest) k0 v0 := rfl
    rw [e1, GoMap.get?_set]
    by_cases h0 : k0 = k
    · simp [GoMap.get?, h0]
    · simp [GoMap.get?, h0, ih]

theorem GoMap.mem_keys_rangeSet (out m : GoMap) (k : String) :
    k ∈ GoMap.keys (GoMap.rangeSet out m) ↔ k ∈ GoMap.keys m ∨ k ∈ GoMap.keys out := by
  induction m with
  | nil => simp [GoMap.rangeSet, GoMap.keys]
  | cons e rest ih =>
    obtain ⟨k0, v0⟩ := e
    have e1 : GoMap.rangeSet out ((k0, v0) :: rest) =
        GoMap.set (GoMap.rangeSet out rest) k0 v0 := rfl
    rw [e1, GoMap.mem_keys_set, ih]
    simp only [GoMap.keys, List.map_cons, List.mem_cons]
    tauto

theorem GoMap.nodup_keys_rangeSet (out m : GoMap) (ho : (GoMap.keys out).Nodup) :
    (GoMap.keys (GoMap.rangeSet out m)).Nodup := by
  induction m with
  | nil => simpa [GoMap.rangeSet] using ho
  | cons e rest ih => exact GoMap.nodup_keys_set _ _ _ ih

/-! ## Maps: union and filter -/

theorem get?_UnionMaps_pair (a b : GoMap) (k : String) :
    GoMap.get? (UnionMaps [a, b]) k =
      match GoMap.get? b k with
      | some v => some v
      | none => GoMap.get? a k := by
  have e1 : UnionMaps [a, b] = GoMap.rangeSet (GoMap.rangeSet [] a) b := rfl
  rw [e1, GoMap.get?_rangeSet, GoMap.get?_rangeSet]
  cases GoMap.get? b k with
  | some v => rfl
  | none =>
    cases GoMap.get? a k with
    | some v => rfl
    | none => rfl

theorem mem_keys_UnionMaps_pair (a b : GoMap) (k : String) :
    k ∈ GoMap.keys (UnionMaps [a, b]) ↔ k ∈ GoMap.keys a ∨ k ∈ GoMap.keys b := by
  have e1 : UnionMaps [a, b] = GoMap.rangeSet (GoMap.rangeSet [] a) b := rfl
  rw [e1, GoMap.mem_keys_rangeSet, GoMap.mem_keys_rangeSet]
  simp only [GoMap.keys, List.map_nil, List.not_mem_nil, or_false]
  tauto

theorem nodup_keys_UnionMaps_pair (a b : GoMap) :
    (GoMap.keys (UnionMaps [a, b])).Nodup := by
  have e1 : UnionMaps [a, b] = GoMap.rangeSet (GoMap.rangeSet [] a) b := rfl
  rw [e1]
  exact GoMap.nodup_keys_rangeSet _ _ (GoMap.nodup_keys_rangeSet _ _ List.nodup_nil)

theorem FilterMap_cons (e : String × String) (rest : GoMap) (f : String → Bool) :
    FilterMap (e :: rest) f =
      if f e.1 then FilterMap rest f else GoMap.set (FilterMap rest f) e.1 e.2 := rfl

theorem get?_FilterMap (m : GoMap) (f : String → Bool) (k : String) :
    GoMap.get? (FilterMap m f) k = if f k then none else GoMap.get? m k := by
  induction m with
  | nil => simp [FilterMap, GoMap.get?]
  | cons e rest ih =>
    obtain ⟨k0, v0⟩ := e
    rw [FilterMap_cons]
    by_cases h0 : k0 = k
    · subst h0
      cases hf : f k0 with
      | true => simp [ih, hf]
      | false => simp [GoMap.get?_set, GoMap.get?, hf]
    · cases hf : f k0 with
      | true => simp [ih, GoMap.get?, h0]
      | false => simp [GoMap.get?_set, GoMap.get?, h0, ih]

theorem mem_keys_FilterMap (m : GoMap) (f : String → Bool) (k : String) :
    k ∈ GoMap.keys (FilterMap m f) ↔ k ∈ GoMap.keys m ∧ f k = false := by
  constructor
  · intro hk
    have h1 : GoMap.get? (FilterMap m f) k ≠ none := fun h =>
      (GoMap.get?_eq_none_iff _ _).mp h hk
    rw [get?_FilterMap] at h1
    cases hf : f k with
    | true => simp [hf] at h1
    | false =>
      simp only [hf, Bool.false_eq_true, if_false] at h1
      refine ⟨?_, rfl⟩
      by_contra hn
      exact h1 ((GoMap.get?_eq_none_iff _ _).mpr hn)
  · rintro ⟨hk, hf⟩
    by_contra hn
    have h1 : GoMap.get? (FilterMap m f) k = none := (GoMap.get?_eq_none_iff _ _).mpr hn
    rw [get?_FilterMap] at h1
    simp only [hf, Bool.false_eq_true, if_false] at h1
    exact (GoMap.get?_eq_none_iff _ _).mp h1 hk

theorem StringSet.Has_eq_true_iff (s : StringSet) (k : String) :
    StringSet.Has s k = true ↔ k ∈ s := by
  simp [StringSet.Has]

/-! ## The path sequence and the host sequence -/

/-- Claim C1: for every intent and every challenge list, the single rule of the
resource returned by `MakeIngress` has as its path sequence the paths returned
by the ACME-path helper for the challenges and the singleton set of the
intent's name, followed by exactly one default entry; the default entry is
the last element and every helper path keeps its index, which is strictly
smaller than the index of the default entry. -/
theorem MakeIngress_paths_helper_then_default {Challenge : Type} (E : Env Challenge)
    (dm : DomainMapping) (backendServiceName hostName ingressClass httpOption : String)
    (tls : Option (List IngressTLS)) (cs : List Challenge) :
    ∃ r rule v,
      MakeIngress E (some dm) backendServiceName hostName ingressClass httpOption tls cs
        = some r ∧
      r.Spec.Rules = [rule] ∧ rule.HTTP = some v ∧
      v.Paths = (E.MakeACMEIngressPaths cs (NewString [dm.Name])).1 ++
        [defaultEntry E dm backendServiceName hostName] ∧
      v.Paths.getLast? = some (defaultEntry E dm backendServiceName hostName) ∧
      v.Paths.length = (E.MakeACMEIngressPaths cs (NewString [dm.Name])).1.length + 1 ∧
      v.Paths[(E.MakeACMEIngressPaths cs (NewString [dm.Name])).1.length]? =
        some (defaultEntry E dm backendServiceName hostName) ∧
      ∀ i : Fin (E.MakeACMEIngressPaths cs (NewString [dm.Name])).1.length,
        i.val < v.Paths.length - 1 ∧
        v.Paths[i.val]? = some ((E.MakeACMEIngressPaths cs (NewString [dm.Name])).1.get i) := by
  refine ⟨_, _, _, rfl, rfl, rfl, rfl, ?_, ?_, ?_, ?_⟩
  · simp [defaultEntry, FromInt]
  · simp
  · simp [defaultEntry, FromInt]
  · intro i
    have hi := i.isLt
    constructor
    · simp
    · simp [List.getElem?_append_left hi]

/-- Claim C2: for every input, the host sequence of the rule returned by
`MakeIngress` is the host sequence returned by the ACME-path helper followed by
the intent's name: the name is present, it is the last element, the sequence
is never empty, and every helper host keeps its index, in front of it. -/
theorem MakeIngress_hosts_helper_then_name {Challenge : Type} (E : Env Challenge)
    (dm : DomainMapping) (backendServiceName hostName ingressClass httpOption : String)
    (tls : Option (List IngressTLS)) (cs : List Challenge) :
    ∃ r rule,
      MakeIngress E (some dm) backendServiceName hostName ingressClass httpOption tls cs
        = some r ∧
      r.Spec.Rules = [rule] ∧
      rule.Hosts = (E.MakeACMEIngressPaths cs (NewString [dm.Name])).2 ++ [dm.Name] ∧
      dm.Name ∈ rule.Hosts ∧
      rule.Hosts.getLast? = some dm.Name ∧
      rule.Hosts ≠ [] ∧
      rule.Hosts.length = (E.MakeACMEIngressPaths cs (NewString [dm.Name])).2.length + 1 ∧
      ∀ i : Fin (E.MakeACMEIngressPaths cs (NewString [dm.Name])).2.length,
        i.val < rule.Hosts.length - 1 ∧
        rule.Hosts[i.val]? = some ((E.MakeACMEIngressPaths cs (NewString [dm.Name])).2.get i) := by
  refine ⟨_, _, rfl, rfl, rfl, ?_, ?_, ?_, ?_, ?_⟩
  · simp
  · simp
  · simp
  · simp
  · intro i
    have hi := i.isLt
    constructor
    · simp
    · simp [List.getElem?_append_left hi]

/-! ## Annotations and labels -/

/-- Claim C3 (annotation precedence): when the intent's annotations bind the
ingress-class key to `v`, then for every `ingressClass` argument the
annotations of the result bind that key to `v`, the intent's value, unless
the key is in the exclusion set, in which case the key is absent from the
result's annotations. -/
theorem MakeIngress_annotation_precedence {Challenge : Type} (E : Env Challenge)
    (dm : DomainMapping) (backendServiceName hostName ingressClass httpOption : String)
    (tls : Option (List IngressTLS)) (cs : List Challenge) (v : String)
    (hv : GoMap.get? dm.Annotations E.IngressClassAnnotationKey = some v) :
    ∃ r,
      MakeIngress E (some dm) backendServiceName hostName ingressClass httpOption tls cs
        = some r ∧
      if E.ExcludedAnnotations.Has E.IngressClassAnnotationKey = true then
        GoMap.get? r.ObjectMeta.Annotations E.IngressClassAnnotationKey = none ∧
        E.IngressClassAnnotationKey ∉ GoMap.keys r.ObjectMeta.Annotations
      else
        GoMap.get? r.ObjectMeta.Annotations E.IngressClassAnnotationKey = some v := by
  refine ⟨_, rfl, ?_⟩
  show
    if E.ExcludedAnnotations.Has E.IngressClassAnnotationKey = true then
      GoMap.get? (FilterMap (UnionMaps [[(E.IngressClassAnnotationKey, ingressClass)],
          dm.Annotations]) E.ExcludedAnnotations.Has) E.IngressClassAnnotationKey = none ∧
      E.IngressClassAnnotationKey ∉ GoMap.keys (FilterMap
        (UnionMaps [[(E.IngressClassAnnotationKey, ingressClass)], dm.Annotations])
        E.ExcludedAnnotations.Has)
    else
      GoMap.get? (FilterMap (UnionMaps [[(E.IngressClassAnnotationKey, ingressClass)],
          dm.Annotations]) E.ExcludedAnnotations.Has) E.IngressClassAnnotationKey = some v
  rw [← GoMap.get?_eq_none_iff, get?_FilterMap, get?_UnionMaps_pair, hv]
  cases E.ExcludedAnnotations.Has E.IngressClassAnnotationKey with
  | true => simp
  | false => simp

/-- Claim C4 (label precedence): the labels of the result bind the owning-UID
key to the intent's UID and the owning-namespace key to the intent's
namespace, whatever the intent's labels bind these two keys to (the two keys
are distinct constants of one map literal). -/
theorem MakeIngress_label_precedence {Challenge : Type} (E : Env Challenge)
    (dm : DomainMapping) (backendServiceName hostName ingressClass httpOption : String)
    (tls : Option (List IngressTLS)) (cs : List Challenge)
    (hkeys : E.DomainMappingUIDLabelKey ≠ E.DomainMappingNamespaceLabelKey) :
    ∃ r,
      MakeIngress E (some dm) backendServiceName hostName ingressClass httpOption tls cs
        = some r ∧
      GoMap.get? r.ObjectMeta.Labels E.DomainMappingUIDLabelKey = some dm.UID ∧
      GoMap.get? r.ObjectMeta.Labels E.DomainMappingNamespaceLabelKey = some dm.Namespace := by
  refine ⟨_, rfl, ?_, ?_⟩
  · show GoMap.get? (UnionMaps [dm.Labels, [(E.DomainMappingUIDLabelKey, dm.UID),
        (E.DomainMappingNamespaceLabelKey, dm.Namespace)]]) E.DomainMappingUIDLabelKey = _
    rw [get?_UnionMaps_pair]
    simp [GoMap.get?]
  · show GoMap.get? (UnionMaps [dm.Labels, [(E.DomainMappingUIDLabelKey, dm.UID),
        (E.DomainMappingNamespaceLabelKey, dm.Namespace)]]) E.DomainMappingNamespaceLabelKey = _
    rw [get?_UnionMaps_pair]
    simp [GoMap.get?, hkeys]

/-- Claim C5: the annotations of the result are a filtered copy of the
intent's annotations: no key of the exclusion set is a key of the result's
annotations, and every annotation of the intent whose key is not in the
exclusion set is in the result with the intent's value. -/
theorem MakeIngress_annotations_filtered_copy {Challenge : Type} (E : Env Challenge)
    (dm : DomainMapping) (backendServiceName hostName ingressClass httpOption : String)
    (tls : Option (List IngressTLS)) (cs : List Challenge) :
    ∃ r,
      MakeIngress E (some dm) backendServiceName hostName ingressClass httpOption tls cs
        = some r ∧
      (∀ k, E.ExcludedAnnotations.Has k = true →
        k ∉ GoMap.keys r.ObjectMeta.Annotations ∧
        GoMap.get? r.ObjectMeta.Annotations k = none) ∧
      (∀ k v, GoMap.get? dm.Annotations k = some v →
        E.ExcludedAnnotations.Has k = false →
        k ∈ GoMap.keys r.ObjectMeta.Annotations ∧
        GoMap.get? r.ObjectMeta.Annotations k = some v) := by
  have key : ∀ k, GoMap.get? (FilterMap (UnionMaps
      [[(E.IngressClassAnnotationKey, ingressClass)], dm.Annotations])
      E.ExcludedAnnotations.Has) k =
      if E.ExcludedAnnotations.Has k = true then none
      else match GoMap.get? dm.Annotations k with
        | some v => some v
        | none => GoMap.get? [(E.IngressClassAnnotationKey, ingressClass)] k := by
    intro k
    rw [get?_FilterMap, get?_UnionMaps_pair]
  refine ⟨_, rfl, ?_, ?_⟩
  · intro k hk
    have h1 : GoMap.get? (FilterMap (UnionMaps
        [[(E.IngressClassAnnotationKey, ingressClass)], dm.Annotations])
        E.ExcludedAnnotations.Has) k = none := by
      rw [key, if_pos hk]
    exact ⟨(GoMap.get?_eq_none_iff _ _).mp h1, h1⟩
  · intro k v hv hk
    have h1 : GoMap.get? (FilterMap (UnionMaps
        [[(E.IngressClassAnnotationKey, ingressClass)], dm.Annotations])
        E.ExcludedAnnotations.Has) k = some v := by
      rw [key, hv, hk]
      simp
    refine ⟨?_, h1⟩
    by_contra hn
    have h2 := (GoMap.get?_eq_none_iff _ _).mpr hn
    rw [h1] at h2
    exact Option.noConfusion h2

/-- Claim C9: the key set of the result's labels is the key set of the
intent's labels together with the owning-UID key and the owning-namespace
key, no key occurring twice; every label of the intent under another key is
in the result with its value; an intent without labels yields exactly the
two system labels. -/
theorem MakeIngress_labels_key_set {Challenge : Type} (E : Env Challenge)
    (dm : DomainMapping) (backendServiceName hostName ingressClass httpOption : String)
    (tls : Option (List IngressTLS)) (cs : List Challenge) :
    ∃ r,
      MakeIngress E (some dm) backendServiceName hostName ingressClass httpOption tls cs
        = some r ∧
      (∀ k, k ∈ GoMap.keys r.ObjectMeta.Labels ↔
        k ∈ GoMap.keys dm.Labels ∨ k = E.DomainMappingUIDLabelKey ∨
          k = E.DomainMappingNamespaceLabelKey) ∧
      (GoMap.keys r.ObjectMeta.Labels).Nodup ∧
      (∀ k v, GoMap.get? dm.Labels k = some v →
        k ≠ E.DomainMappingUIDLabelKey → k ≠ E.DomainMappingNamespaceLabelKey →
        GoMap.get? r.ObjectMeta.Labels k = some v) ∧
      (dm.Labels = [] →
        E.DomainMappingUIDLabelKey ≠ E.DomainMappingNamespaceLabelKey →
        List.Perm r.ObjectMeta.Labels
          [(E.DomainMappingUIDLabelKey, dm.UID),
           (E.DomainMappingNamespaceLabelKey, dm.Namespace)]) := by
  refine ⟨_, rfl, ?_, ?_, ?_, ?_⟩
  · intro k
    show k ∈ GoMap.keys (UnionMaps [dm.Labels, [(E.DomainMappingUIDLabelKey, dm.UID),
        (E.DomainMappingNamespaceLabelKey, dm.Namespace)]]) ↔ _
    rw [mem_keys_UnionMaps_pair]
    simp [GoMap.keys]
  · exact nodup_keys_UnionMaps_pair _ _
  · intro k v hv h1 h2
    show GoMap.get? (UnionMaps [dm.Labels, [(E.DomainMappingUIDLabelKey, dm.UID),
        (E.DomainMappingNamespaceLabelKey, dm.Namespace)]]) k = _
    rw [get?_UnionMaps_pair]
    have h3 : ¬ E.DomainMappingUIDLabelKey = k := fun h => h1 h.symm
    have h4 : ¬ E.DomainMappingNamespaceLabelKey = k := fun h => h2 h.symm
    simp [GoMap.get?, h3, h4, hv]
  · intro hl hkeys
    show List.Perm (UnionMaps [dm.Labels, [(E.DomainMappingUIDLabelKey, dm.UID),
        (E.DomainMappingNamespaceLabelKey, dm.Namespace)]]) _
    have h5 : ¬ E.DomainMappingNamespaceLabelKey = E.DomainMappingUIDLabelKey :=
      fun h => hkeys h.symm
    rw [hl]
    simp only [UnionMaps, List.foldl, GoMap.rangeSet, List.foldr, GoMap.set, h5, if_false]
    exact List.Perm.swap _ _ _

/-! ## Namespace, owner, default entry, pass-through -/

/-- Claim C6 (co-location): the namespace of the returned resource is the
intent's namespace, and the backend of the split of the default (last) path
entry has that same namespace as its service namespace, whatever the backend
service name, the host name and the challenges are. -/
theorem MakeIngress_namespace_colocated {Challenge : Type} (E : Env Challenge)
    (dm : DomainMapping) (backendServiceName hostName ingressClass httpOption : String)
    (tls : Option (List IngressTLS)) (cs : List Challenge) :
    ∃ r rule v p s,
      MakeIngress E (some dm) backendServiceName hostName ingressClass httpOption tls cs
        = some r ∧
      r.ObjectMeta.Namespace = dm.Namespace ∧
      r.Spec.Rules = [rule] ∧ rule.HTTP = some v ∧
      v.Paths.getLast? = some p ∧ p.Splits = [s] ∧
      s.IngressBackend.ServiceNamespace = dm.Namespace ∧
      s.IngressBackend.ServiceNamespace = r.ObjectMeta.Namespace := by
  refine ⟨_, _, _, defaultEntry E dm backendServiceName hostName, _,
    rfl, rfl, rfl, rfl, ?_, rfl, rfl, rfl⟩
  simp [defaultEntry, FromInt]

/-- Claim C7: for a non-nil intent the returned resource has exactly one owner
reference; its controller flag is set and it names the intent by the intent's
name and UID. -/
theorem MakeIngress_single_controller_owner {Challenge : Type} (E : Env Challenge)
    (dm : DomainMapping) (backendServiceName hostName ingressClass httpOption : String)
    (tls : Option (List IngressTLS)) (cs : List Challenge) :
    ∃ r ref,
      MakeIngress E (some dm) backendServiceName hostName ingressClass httpOption tls cs
        = some r ∧
      r.ObjectMeta.OwnerReferences = [ref] ∧
      r.ObjectMeta.OwnerReferences.length = 1 ∧
      NewControllerRef E dm = some ref ∧
      ref.Controller = some true ∧ ref.Name = dm.Name ∧ ref.UID = dm.UID :=
  ⟨_, _, rfl, rfl, rfl, rfl, rfl, rfl, rfl⟩

/-- Claim C8: the default (last) path entry has the `hostName` argument as its
rewrite host and exactly one traffic split, of percent 100, to the backend
service `backendServiceName` at the integer port 80, with exactly one appended
header, which binds the original-host key to the intent's name. -/
theorem MakeIngress_default_entry_shape {Challenge : Type} (E : Env Challenge)
    (dm : DomainMapping) (backendServiceName hostName ingressClass httpOption : String)
    (tls : Option (List IngressTLS)) (cs : List Challenge) :
    ∃ r rule v p s,
      MakeIngress E (some dm) backendServiceName hostName ingressClass httpOption tls cs
        = some r ∧
      r.Spec.Rules = [rule] ∧ rule.HTTP = some v ∧
      v.Paths.getLast? = some p ∧
      p.RewriteHost = hostName ∧
      p.Splits = [s] ∧ p.Splits.length = 1 ∧
      s.Percent = 100 ∧
      s.IngressBackend.ServiceName = backendServiceName ∧
      s.IngressBackend.ServicePort = FromInt 80 ∧
      s.IngressBackend.ServicePort = IntOrString.int 80 ∧
      s.AppendHeaders = [(E.OriginalHostKey, dm.Name)] ∧
      s.AppendHeaders.length = 1 ∧
      GoMap.get? s.AppendHeaders E.OriginalHostKey = some dm.Name := by
  refine ⟨_, _, _, defaultEntry E dm backendServiceName hostName, _,
    rfl, rfl, rfl, ?_, rfl, rfl, rfl, rfl, rfl, rfl, rfl, rfl, rfl, ?_⟩
  · simp [defaultEntry, FromInt]
  · simp [GoMap.get?]

/-- Claim C10 (pass-through): the spec of the result has the `httpOption`
argument as its HTTP option and the `tls` argument as its TLS list (the nil
slice and the empty slice included), and two calls that agree on these two
arguments agree on these two fields, whatever the environments, intents,
challenges and other arguments are. -/
theorem MakeIngress_httpOption_tls_pass_through {Challenge Challenge2 : Type}
    (E : Env Challenge) (E2 : Env Challenge2) (dm dm2 : DomainMapping)
    (backendServiceName hostName ingressClass : String)
    (backendServiceName2 hostName2 ingressClass2 : String)
    (httpOption : String) (tls : Option (List IngressTLS))
    (cs : List Challenge) (cs2 : List Challenge2) :
    ∃ r r2,
      MakeIngress E (some dm) backendServiceName hostName ingressClass httpOption tls cs
        = some r ∧
      MakeIngress E2 (some dm2) backendServiceName2 hostName2 ingressClass2 httpOption tls cs2
        = some r2 ∧
      r.Spec.HTTPOption = httpOption ∧ r.Spec.TLS = tls ∧
      r2.Spec.HTTPOption = r.Spec.HTTPOption ∧ r2.Spec.TLS = r.Spec.TLS :=
  ⟨_, _, rfl, rfl, rfl, rfl, rfl, rfl⟩

/-! ## The theorems with a hypothesis, at concrete inputs -/

/-- Claim C3 at `spoofedIntent`, whose annotations bind the ingress-class key
to "custom.ingress", with the class argument "istio": under `knativeEnv` the
result keeps "custom.ingress", under `strictEnv`, which excludes the key, the
key is absent. -/
theorem MakeIngress_annotation_precedence_witness :
    GoMap.get? spoofedIntent.Annotations knativeEnv.IngressClassAnnotationKey
      = some "custom.ingress" ∧
    (∃ r,
      MakeIngress knativeEnv (some spoofedIntent) "svc" "svc.ns.svc.cluster.local" "istio"
        "Enabled" none pendingChallenges = some r ∧
      GoMap.get? r.ObjectMeta.Annotations "networking.knative.dev/ingress.class"
        = some "custom.ingress") ∧
    (∃ r,
      MakeIngress strictEnv (some spoofedIntent) "svc" "svc.ns.svc.cluster.local" "istio"
        "Enabled" none pendingChallenges = some r ∧
      GoMap.get? r.ObjectMeta.Annotations "networking.knative.dev/ingress.class" = none ∧
      "networking.knative.dev/ingress.class" ∉ GoMap.keys r.ObjectMeta.Annotations) := by
  refine ⟨by decide, ?_, ?_⟩
  · obtain ⟨r, hr, h⟩ := MakeIngress_annotation_precedence knativeEnv spoofedIntent "svc"
      "svc.ns.svc.cluster.local" "istio" "Enabled" none pendingChallenges "custom.ingress"
      (by decide)
    rw [if_neg (by decide)] at h
    exact ⟨r, hr, h⟩
  · obtain ⟨r, hr, h⟩ := MakeIngress_annotation_precedence strictEnv spoofedIntent "svc"
      "svc.ns.svc.cluster.local" "istio" "Enabled" none pendingChallenges "custom.ingress"
      (by decide)
    rw [if_pos (by decide)] at h
    exact ⟨r, hr, h⟩

/-- Claim C4 at `spoofedIntent`, whose labels bind the owning-UID key to
"forged" and the owning-namespace key to "kube-system": the result binds them
to "u1" and "ns". -/
theorem MakeIngress_label_precedence_witness :
    knativeEnv.DomainMappingUIDLabelKey ≠ knativeEnv.DomainMappingNamespaceLabelKey ∧
    GoMap.get? spoofedIntent.Labels knativeEnv.DomainMappingUIDLabelKey = some "forged" ∧
    GoMap.get? spoofedIntent.Labels knativeEnv.DomainMappingNamespaceLabelKey
      = some "kube-system" ∧
    ∃ r,
      MakeIngress knativeEnv (some spoofedIntent) "svc" "svc.ns.svc.cluster.local" "istio"
        "Enabled" none pendingChallenges = some r ∧
      GoMap.get? r.ObjectMeta.Labels "serving.knative.dev/domainMappingUID" = some "u1" ∧
      GoMap.get? r.ObjectMeta.Labels "serving.knative.dev/domainMappingNamespace"
        = some "ns" :=
  ⟨by decide, by decide, by decide,
    MakeIngress_label_precedence knativeEnv spoofedIntent "svc" "svc.ns.svc.cluster.local"
      "istio" "Enabled" none pendingChallenges (by decide)⟩

/-- Claim C5 at `spoofedIntent` under `knativeEnv`: the excluded
last-applied-configuration key is dropped, the annotation "team" is kept. -/
theorem MakeIngress_annotations_filtered_copy_witness :
    knativeEnv.ExcludedAnnotations.Has "kubectl.kubernetes.io/last-applied-configuration"
      = true ∧
    GoMap.get? spoofedIntent.Annotations "kubectl.kubernetes.io/last-applied-configuration"
      = some "blob" ∧
    GoMap.get? spoofedIntent.Annotations "team" = some "payments" ∧
    knativeEnv.ExcludedAnnotations.Has "team" = false ∧
    ∃ r,
      MakeIngress knativeEnv (some spoofedIntent) "svc" "svc.ns.svc.cluster.local" "istio"
        "Enabled" none pendingChallenges = some r ∧
      "kubectl.kubernetes.io/last-applied-configuration"
        ∉ GoMap.keys r.ObjectMeta.Annotations ∧
      "team" ∈ GoMap.keys r.ObjectMeta.Annotations ∧
      GoMap.get? r.ObjectMeta.Annotations "team" = some "payments" := by
  refine ⟨by decide, by decide, by decide, by decide, ?_⟩
  obtain ⟨r, hr, h1, h2⟩ := MakeIngress_annotations_filtered_copy knativeEnv spoofedIntent
    "svc" "svc.ns.svc.cluster.local" "istio" "Enabled" none pendingChallenges
  exact ⟨r, hr,
    (h1 "kubectl.kubernetes.io/last-applied-configuration" (by decide)).1,
    (h2 "team" "payments" (by decide) (by decide)).1,
    (h2 "team" "payments" (by decide) (by decide)).2⟩

/-- Claim C9 at `plainIntent`, which has no labels, and at `spoofedIntent`,
whose label "app" is under no system key: the first result has exactly the
two system labels, the second keeps "app". -/
theorem MakeIngress_labels_key_set_witness :
    plainIntent.Labels = [] ∧
    knativeEnv.DomainMappingUIDLabelKey ≠ knativeEnv.DomainMappingNamespaceLabelKey ∧
    (∃ r,
      MakeIngress knativeEnv (some plainIntent) "svc" "svc.ns.svc.cluster.local" "istio"
        "Enabled" none [] = some r ∧
      List.Perm r.ObjectMeta.Labels
        [("serving.knative.dev/domainMappingUID", "u1"),
         ("serving.knative.dev/domainMappingNamespace", "ns")]) ∧
    GoMap.get? spoofedIntent.Labels "app" = some "shop" ∧
    (∃ r,
      MakeIngress knativeEnv (some spoofedIntent) "svc" "svc.ns.svc.cluster.local" "istio"
        "Enabled" none [] = some r ∧
      GoMap.get? r.ObjectMeta.Labels "app" = some "shop") := by
  refine ⟨rfl, by decide, ?_, by decide, ?_⟩
  · obtain ⟨r, hr, _, _, _, h4⟩ := MakeIngress_labels_key_set knativeEnv plainIntent "svc"
      "svc.ns.svc.cluster.local" "istio" "Enabled" none []
    exact ⟨r, hr, h4 rfl (by decide)⟩
  · obtain ⟨r, hr, _, _, h3, _⟩ := MakeIngress_labels_key_set knativeEnv spoofedIntent "svc"
      "svc.ns.svc.cluster.local" "istio" "Enabled" none []
    exact ⟨r, hr, h3 "app" "shop" (by decide) (by decide) (by decide)⟩

/-! ## Ingress class, name, rule -/

/-- Claim C11: the ingress class is carried by the one fixed annotation key.
With that key outside the exclusion set, an intent without an annotation under
the key gets the `ingressClass` argument under it, verbatim, and an intent
without annotations gets exactly the single entry that binds the key to
`ingressClass`. -/
theorem MakeIngress_class_annotation {Challenge : Type} (E : Env Challenge)
    (dm : DomainMapping) (backendServiceName hostName ingressClass httpOption : String)
    (tls : Option (List IngressTLS)) (cs : List Challenge)
    (hex : E.ExcludedAnnotations.Has E.IngressClassAnnotationKey = false) :
    ∃ r,
      MakeIngress E (some dm) backendServiceName hostName ingressClass httpOption tls cs
        = some r ∧
      (GoMap.get? dm.Annotations E.IngressClassAnnotationKey = none →
        GoMap.get? r.ObjectMeta.Annotations E.IngressClassAnnotationKey
          = some ingressClass) ∧
      (dm.Annotations = [] →
        r.ObjectMeta.Annotations = [(E.IngressClassAnnotationKey, ingressClass)]) := by
  refine ⟨_, rfl, ?_, ?_⟩
  · intro hnone
    show GoMap.get? (FilterMap (UnionMaps [[(E.IngressClassAnnotationKey, ingressClass)],
        dm.Annotations]) E.ExcludedAnnotations.Has) E.IngressClassAnnotationKey = _
    rw [get?_FilterMap, get?_UnionMaps_pair, hnone, hex]
    simp [GoMap.get?]
  · intro hnil
    show FilterMap (UnionMaps [[(E.IngressClassAnnotationKey, ingressClass)],
        dm.Annotations]) E.ExcludedAnnotations.Has = _
    rw [hnil]
    simp [UnionMaps, GoMap.rangeSet, FilterMap, GoMap.set, hex]

/-- Claim C12: the name of the returned resource is the child-naming function
applied to the intent's name and the empty suffix; two calls whose intents
have the same name return resources of the same name, whatever the other
fields of the intents and the other arguments are. -/
theorem MakeIngress_name_from_intent_name {Challenge : Type} (E : Env Challenge)
    (dm dm2 : DomainMapping)
    (backendServiceName hostName ingressClass httpOption : String)
    (backendServiceName2 hostName2 ingressClass2 httpOption2 : String)
    (tls tls2 : Option (List IngressTLS)) (cs cs2 : List Challenge)
    (hname : dm2.Name = dm.Name) :
    ∃ r r2,
      MakeIngress E (some dm) backendServiceName hostName ingressClass httpOption tls cs
        = some r ∧
      MakeIngress E (some dm2) backendServiceName2 hostName2 ingressClass2 httpOption2 tls2 cs2
        = some r2 ∧
      r.ObjectMeta.Name = E.ChildName dm.Name "" ∧
      r2.ObjectMeta.Name = r.ObjectMeta.Name := by
  refine ⟨_, _, rfl, rfl, rfl, ?_⟩
  show E.ChildName dm2.Name "" = E.ChildName dm.Name ""
  rw [hname]

/-- Claim C17: the spec of the returned resource holds exactly one routing
rule, whatever the challenges and the TLS entries are; the visibility of the
rule is the ExternalIP classification and its HTTP rule value is present. -/
theorem MakeIngress_single_external_rule {Challenge : Type} (E : Env Challenge)
    (dm : DomainMapping) (backendServiceName hostName ingressClass httpOption : String)
    (tls : Option (List IngressTLS)) (cs : List Challenge) :
    ∃ r rule v,
      MakeIngress E (some dm) backendServiceName hostName ingressClass httpOption tls cs
        = some r ∧
      r.Spec.Rules = [rule] ∧ r.Spec.Rules.length = 1 ∧
      rule.Visibility = E.IngressVisibilityExternalIP ∧
      rule.HTTP = some v ∧ rule.HTTP.isSome = true :=
  ⟨_, _, _, rfl, rfl, rfl, rfl, rfl, rfl⟩

/-- Claim C18: the default entry, the last of the path sequence, is a
catch-all: its path is the empty string and it has no header-match
condition. -/
theorem MakeIngress_default_entry_catch_all {Challenge : Type} (E : Env Challenge)
    (dm : DomainMapping) (backendServiceName hostName ingressClass httpOption : String)
    (tls : Option (List IngressTLS)) (cs : List Challenge) :
    ∃ r rule v p,
      MakeIngress E (some dm) backendServiceName hostName ingressClass httpOption tls cs
        = some r ∧
      r.Spec.Rules = [rule] ∧ rule.HTTP = some v ∧
      v.Paths.getLast? = some p ∧
      p.Path = "" ∧ p.Headers = [] ∧ GoMap.keys p.Headers = [] ∧
      ∀ k, GoMap.get? p.Headers k = none := by
  refine ⟨_, _, _, defaultEntry E dm backendServiceName hostName,
    rfl, rfl, rfl, ?_, rfl, rfl, rfl, ?_⟩
  · simp [defaultEntry, FromInt]
  · intro k
    rfl

/-! ## End to end, with the helper of the specification -/

/-- Claim C13: without challenges the returned resource has exactly one rule,
whose host sequence is exactly the intent's name and whose path sequence is
exactly the default entry: rewrite host `hostName`, one split of percent 100
to port 80, with the original-host header bound to the intent's name. -/
theorem MakeIngress_no_challenges {Challenge : Type} (E : Env Challenge)
    (pathOf : Challenge → HTTPIngressPath) (hostOf : Challenge → String)
    (dm : DomainMapping) (backendServiceName hostName ingressClass httpOption : String)
    (tls : Option (List IngressTLS)) :
    ∃ r rule v p s,
      MakeIngress (withSpecHelper E pathOf hostOf) (some dm) backendServiceName hostName
        ingressClass httpOption tls [] = some r ∧
      r.Spec.Rules = [rule] ∧
      rule.Hosts = [dm.Name] ∧
      rule.HTTP = some v ∧
      v.Paths = [p] ∧ v.Paths.length = 1 ∧
      p = defaultEntry E dm backendServiceName hostName ∧
      p.RewriteHost = hostName ∧
      p.Splits = [s] ∧ s.Percent = 100 ∧
      s.IngressBackend.ServicePort = IntOrString.int 80 ∧
      s.AppendHeaders = [(E.OriginalHostKey, dm.Name)] :=
  ⟨_, _, _, _, _, rfl, rfl, rfl, rfl, rfl, rfl, rfl, rfl, rfl, rfl, rfl, rfl⟩

/-- Claim C14, as the code has it: with two challenge descriptors the path
sequence has length 3, the two challenge paths followed by the default entry.
The host sequence is the hosts of the two challenges that are not the
intent's name, in the same order, followed by the intent's name: it ends
with the intent's name, has at most 3 elements, and has length 3 when both
challenge hosts differ from the intent's name. -/
theorem MakeIngress_two_challenges {Challenge : Type} (E : Env Challenge)
    (pathOf : Challenge → HTTPIngressPath) (hostOf : Challenge → String)
    (dm : DomainMapping) (backendServiceName hostName ingressClass httpOption : String)
    (tls : Option (List IngressTLS)) (c1 c2 : Challenge) :
    ∃ r rule v,
      MakeIngress (withSpecHelper E pathOf hostOf) (some dm) backendServiceName hostName
        ingressClass httpOption tls [c1, c2] = some r ∧
      r.Spec.Rules = [rule] ∧ rule.HTTP = some v ∧
      v.Paths = [pathOf c1, pathOf c2, defaultEntry E dm backendServiceName hostName] ∧
      v.Paths.length = 3 ∧
      rule.Hosts =
        [hostOf c1, hostOf c2].filter (fun host => decide (host ≠ dm.Name)) ++ [dm.Name] ∧
      rule.Hosts.getLast? = some dm.Name ∧
      rule.Hosts.length ≤ 3 ∧
      (hostOf c1 ≠ dm.Name → hostOf c2 ≠ dm.Name →
        rule.Hosts = [hostOf c1, hostOf c2, dm.Name] ∧ rule.Hosts.length = 3) := by
  have hf : (fun host => !(NewString [dm.Name]).Has host) =
      (fun host => decide (host ≠ dm.Name)) := by
    funext host
    simp [NewString, StringSet.Has]
  have hhosts : ([hostOf c1, hostOf c2].filter
      (fun host => !(NewString [dm.Name]).Has host)) ++ [dm.Name] =
      [hostOf c1, hostOf c2].filter (fun host => decide (host ≠ dm.Name)) ++ [dm.Name] := by
    rw [hf]
  refine ⟨_, _, _, rfl, rfl, rfl, rfl, rfl, hhosts, ?_, ?_, ?_⟩
  · show (List.filter _ _ ++ [dm.Name]).getLast? = _
    simp
  · show (List.filter (fun host => !(NewString [dm.Name]).Has host)
      [hostOf c1, hostOf c2] ++ [dm.Name]).length ≤ 3
    have hle := List.length_filter_le (fun host => !(NewString [dm.Name]).Has host)
      [hostOf c1, hostOf c2]
    simp only [List.length_append, List.length_cons, List.length_nil] at hle ⊢
    omega
  · intro h1 h2
    have e : ([hostOf c1, hostOf c2].filter
        (fun host => !(NewString [dm.Name]).Has host)) ++ [dm.Name] =
        [hostOf c1, hostOf c2, dm.Name] := by
      rw [hf]
      simp [List.filter, h1, h2]
    refine ⟨e, ?_⟩
    show (List.filter (fun host => !(NewString [dm.Name]).Has host)
      [hostOf c1, hostOf c2] ++ [dm.Name]).length = 3
    rw [e]
    rfl

/-! ## Ingress class, name and end-to-end at concrete inputs -/

/-- Claim C11 at `plainIntent`, which has no annotations, with the class
argument "istio" under `knativeEnv`, where the ingress-class key is not
excluded: the annotations of the result are the one entry for "istio". -/
theorem MakeIngress_class_annotation_witness :
    knativeEnv.ExcludedAnnotations.Has knativeEnv.IngressClassAnnotationKey = false ∧
    GoMap.get? plainIntent.Annotations knativeEnv.IngressClassAnnotationKey = none ∧
    plainIntent.Annotations = [] ∧
    ∃ r,
      MakeIngress knativeEnv (some plainIntent) "svc" "svc.ns.svc.cluster.local" "istio"
        "Enabled" none pendingChallenges = some r ∧
      GoMap.get? r.ObjectMeta.Annotations "networking.knative.dev/ingress.class"
        = some "istio" ∧
      r.ObjectMeta.Annotations = [("networking.knative.dev/ingress.class", "istio")] := by
  refine ⟨by decide, by decide, rfl, ?_⟩
  obtain ⟨r, hr, h1, h2⟩ := MakeIngress_class_annotation knativeEnv plainIntent "svc"
    "svc.ns.svc.cluster.local" "istio" "Enabled" none pendingChallenges (by decide)
  exact ⟨r, hr, h1 (by decide), h2 rfl⟩

/-- Claim C12 at `plainIntent` and `movedIntent`, which share the name
"a.example.com" and nothing else, with different other arguments: the two
results have the same name. -/
theorem MakeIngress_name_from_intent_name_witness :
    movedIntent.Name = plainIntent.Name ∧
    movedIntent.Namespace ≠ plainIntent.Namespace ∧
    ∃ r r2,
      MakeIngress knativeEnv (some plainIntent) "svc" "svc.ns.svc.cluster.local" "istio"
        "Enabled" none [] = some r ∧
      MakeIngress knativeEnv (some movedIntent) "web" "web.prod.svc.cluster.local" "kourier"
        "Redirected" (some []) pendingChallenges = some r2 ∧
      r.ObjectMeta.Name = knativeEnv.ChildName "a.example.com" "" ∧
      r2.ObjectMeta.Name = r.ObjectMeta.Name :=
  ⟨rfl, by decide,
    MakeIngress_name_from_intent_name knativeEnv plainIntent movedIntent
      "svc" "svc.ns.svc.cluster.local" "istio" "Enabled"
      "web" "web.prod.svc.cluster.local" "kourier" "Redirected"
      none (some []) [] pendingChallenges rfl⟩

/-- Claim C13 at the intent named "a.example.com" in namespace "ns" with UID
"u1", backend "svc" and host "svc.ns.svc.cluster.local". -/
theorem MakeIngress_no_challenges_witness :
    ∃ r rule v p s,
      MakeIngress (withSpecHelper knativeEnv challengePath challengeHost) (some plainIntent)
        "svc" "svc.ns.svc.cluster.local" "net-certmanager" "Enabled" none [] = some r ∧
      r.Spec.Rules = [rule] ∧
      rule.Hosts = ["a.example.com"] ∧
      rule.HTTP = some v ∧
      v.Paths = [p] ∧ v.Paths.length = 1 ∧
      p = defaultEntry knativeEnv plainIntent "svc" "svc.ns.svc.cluster.local" ∧
      p.RewriteHost = "svc.ns.svc.cluster.local" ∧
      p.Splits = [s] ∧ s.Percent = 100 ∧
      s.IngressBackend.ServicePort = IntOrString.int 80 ∧
      s.AppendHeaders = [("K-Original-Host", "a.example.com")] :=
  MakeIngress_no_challenges knativeEnv challengePath challengeHost plainIntent
    "svc" "svc.ns.svc.cluster.local" "net-certmanager" "Enabled" none

/-- Claim C14 at `plainIntent` with the two descriptors of `twoChallenges`,
whose hosts are not the intent's name: three paths and three hosts. -/
theorem MakeIngress_two_challenges_witness :
    "c1.example.com" ≠ plainIntent.Name ∧
    "c2.example.com" ≠ plainIntent.Name ∧
    ∃ r rule v,
      MakeIngress (withSpecHelper knativeEnv challengePath challengeHost) (some plainIntent)
        "svc" "svc.ns.svc.cluster.local" "net-certmanager" "Enabled" none twoChallenges
        = some r ∧
      r.Spec.Rules = [rule] ∧ rule.HTTP = some v ∧
      v.Paths.map (fun p => p.Path) =
        ["/.well-known/acme-challenge/t1", "/.well-known/acme-challenge/t2", ""] ∧
      v.Paths.length = 3 ∧
      rule.Hosts = ["c1.example.com", "c2.example.com", "a.example.com"] ∧
      rule.Hosts.length = 3 ∧
      rule.Hosts.getLast? = some "a.example.com" := by
  refine ⟨by decide, by decide, ?_⟩
  obtain ⟨r, rule, v, hr, h1, h2, h3, h4, _, h6, _, h8⟩ :=
    MakeIngress_two_challenges knativeEnv challengePath challengeHost plainIntent
      "svc" "svc.ns.svc.cluster.local" "net-certmanager" "Enabled" none
      { Host := "c1.example.com", Path := "/.well-known/acme-challenge/t1", ServiceName := "cm-1" }
      { Host := "c2.example.com", Path := "/.well-known/acme-challenge/t2", ServiceName := "cm-2" }
  obtain ⟨h9, h10⟩ := h8 (by decide) (by decide)
  refine ⟨r, rule, v, hr, h1, h2, ?_, h4, h9, h10, h6⟩
  rw [h3]
  rfl

/-- Claim C14 fails as stated: for `plainIntent` and the two challenge
descriptors of `ownHostChallenges`, whose host is the intent's name, the path
sequence has length 3 but the host sequence is the intent's name alone, of
length 1 and not 3. -/
theorem MakeIngress_two_challenges_of_own_host :
    ownHostChallenges.length = 2 ∧
    (∃ r rule v,
      MakeIngress (withSpecHelper knativeEnv challengePath challengeHost) (some plainIntent)
        "svc" "svc.ns.svc.cluster.local" "net-certmanager" "Enabled" none ownHostChallenges
        = some r ∧
      r.Spec.Rules = [rule] ∧ rule.HTTP = some v ∧
      v.Paths.length = 3 ∧
      rule.Hosts = ["a.example.com"] ∧
      rule.Hosts.length = 1) ∧
    ¬ (∀ r rule,
      MakeIngress (withSpecHelper knativeEnv challengePath challengeHost) (some plainIntent)
        "svc" "svc.ns.svc.cluster.local" "net-certmanager" "Enabled" none ownHostChallenges
        = some r →
      r.Spec.Rules = [rule] → rule.Hosts.length = 3) := by
  have hhosts : ((ownHostChallenges.map challengeHost).filter
      (fun host => !(NewString [plainIntent.Name]).Has host)) ++ [plainIntent.Name] =
      ["a.example.com"] := by decide
  refine ⟨rfl, ⟨_, _, _, rfl, rfl, rfl, rfl, hhosts, ?_⟩, ?_⟩
  · show (List.filter _ _ ++ [plainIntent.Name]).length = 1
    rw [hhosts]
    rfl
  · intro h
    have h3 := h _ _ rfl rfl
    have h1 : (List.filter (fun host => !(NewString [plainIntent.Name]).Has host)
        (ownHostChallenges.map challengeHost) ++ [plainIntent.Name]).length = 3 := h3
    rw [hhosts] at h1
    exact absurd h1 (by decide)

/-! ## The store: allocation and reads -/

theorem set_length_append_singleton {α : Type} (pre : List α) (x y : α) :
    (pre ++ [x]).set pre.length y = pre ++ [y] := by
  induction pre with
  | nil => rfl
  | cons a rest ih => simp [ih]

theorem getD_length_add_append {α : Type} (pre post : List α) (k : Nat) (d : α) :
    (pre ++ post).getD (pre.length + k) d = post.getD k d := by
  induction pre with
  | nil => simp
  | cons a rest ih =>
    have e : (a :: rest).length + k = (rest.length + k) + 1 := by simp; omega
    rw [e]
    simpa using ih

theorem getD_append_of_lt {α : Type} (pre post : List α) (a : Nat) (d : α)
    (h : a < pre.length) : (pre ++ post).getD a d = pre.getD a d := by
  simp [List.getD_eq_getElem?_getD, List.getElem?_append_left h]

theorem Store.read_prefix (i : DomainMappingObj) (M extra : List GoMap) (r : MapRef)
    (h : r.below M.length = true) :
    Store.read { intent := i, maps := M ++ extra } r = Store.read { intent := i, maps := M } r := by
  cases r with
  | none => rfl
  | some a =>
    have ha : a < M.length := by simpa [MapRef.below] using h
    exact getD_append_of_lt _ _ _ _ ha

theorem Store.read_new (i : DomainMappingObj) (M extra : List GoMap) (k : Nat) :
    Store.read { intent := i, maps := M ++ extra } (some (M.length + k)) = extra.getD k [] :=
  getD_length_add_append _ _ _ _

theorem MapRef.below_append (r : MapRef) (pre extra : List GoMap)
    (h : r.below pre.length = true) : r.below (pre ++ extra).length = true := by
  cases r with
  | none => rfl
  | some a =>
    have ha : a < pre.length := by simpa [MapRef.below] using h
    simp [MapRef.below]
    omega

theorem UnionMapsS_pair (i : DomainMappingObj) (M : List GoMap) (a b : MapRef)
    (ha : a.below M.length = true) (hb : b.below M.length = true) :
    UnionMapsS { intent := i, maps := M } [a, b] =
      ({ intent := i,
         maps := M ++ [UnionMaps [Store.read { intent := i, maps := M } a,
           Store.read { intent := i, maps := M } b]] },
       some M.length) := by
  have ra := Store.read_prefix i M [([] : GoMap)] a ha
  have rn : ∀ m : GoMap, Store.read { intent := i, maps := M ++ [m] } (some M.length) = m := by
    intro m
    exact Store.read_new i M [m] 0
  simp only [UnionMapsS, Store.alloc, List.foldl, Store.put, rn, UnionMaps, ra,
    set_length_append_singleton]
  have rb := Store.read_prefix i M [GoMap.rangeSet [] (Store.read { intent := i, maps := M } a)] b hb
  rw [rb]

theorem FilterMapS_eq (i : DomainMappingObj) (M : List GoMap) (m : MapRef)
    (f : String → Bool) (hm : m.below M.length = true) :
    FilterMapS { intent := i, maps := M } m f =
      ({ intent := i, maps := M ++ [FilterMap (Store.read { intent := i, maps := M } m) f] },
       some M.length) := by
  have rm := Store.read_prefix i M [([] : GoMap)] m hm
  have rn : ∀ x : GoMap, Store.read { intent := i, maps := M ++ [x] } (some M.length) = x := by
    intro x
    exact Store.read_new i M [x] 0
  simp only [FilterMapS, Store.alloc, Store.put, rn, rm, set_length_append_singleton, FilterMap]

theorem MakeIngressS_eq {Challenge : Type} (E : Env Challenge) (st : Store)
    (backendServiceName hostName ingressClass httpOption : String)
    (tls : Option (List IngressTLS)) (cs : List Challenge)
    (hLabels : st.intent.Labels.below st.maps.length = true)
    (hAnnotations : st.intent.Annotations.below st.maps.length = true) :
    ∃ r,
      MakeIngressS E st backendServiceName hostName ingressClass httpOption tls cs =
        some (r, { st with maps := st.maps ++
          [[(E.IngressClassAnnotationKey, ingressClass)],
           UnionMaps [[(E.IngressClassAnnotationKey, ingressClass)],
             st.read st.intent.Annotations],
           FilterMap (UnionMaps [[(E.IngressClassAnnotationKey, ingressClass)],
             st.read st.intent.Annotations]) E.ExcludedAnnotations.Has,
           [(E.DomainMappingUIDLabelKey, st.intent.UID),
            (E.DomainMappingNamespaceLabelKey, st.intent.Namespace)],
           UnionMaps [st.read st.intent.Labels,
             [(E.DomainMappingUIDLabelKey, st.intent.UID),
              (E.DomainMappingNamespaceLabelKey, st.intent.Namespace)]]] }) ∧
      r.ObjectMeta.Annotations = some (st.maps.length + 2) ∧
      r.ObjectMeta.Labels = some (st.maps.length + 4) ∧
      MakeIngress E (some st.snapshot) backendServiceName hostName ingressClass httpOption
        tls cs = some (r.deref { st with maps := st.maps ++
          [[(E.IngressClassAnnotationKey, ingressClass)],
           UnionMaps [[(E.IngressClassAnnotationKey, ingressClass)],
             st.read st.intent.Annotations],
           FilterMap (UnionMaps [[(E.IngressClassAnnotationKey, ingressClass)],
             st.read st.intent.Annotations]) E.ExcludedAnnotations.Has,
           [(E.DomainMappingUIDLabelKey, st.intent.UID),
            (E.DomainMappingNamespaceLabelKey, st.intent.Namespace)],
           UnionMaps [st.read st.intent.Labels,
             [(E.DomainMappingUIDLabelKey, st.intent.UID),
              (E.DomainMappingNamespaceLabelKey, st.intent.Namespace)]]] }) := by
  obtain ⟨i, M⟩ := st
  simp only at hLabels hAnnotations
  have u1 : UnionMapsS { intent := i, maps := M ++ [[(E.IngressClassAnnotationKey, ingressClass)]] }
      [some M.length, i.Annotations] =
      ({ intent := i, maps := M ++ [[(E.IngressClassAnnotationKey, ingressClass)],
          UnionMaps [[(E.IngressClassAnnotationKey, ingressClass)],
            Store.read { intent := i, maps := M } i.Annotations]] },
       some (M.length + 1)) := by
    rw [UnionMapsS_pair i _ _ _ (by simp [MapRef.below]) (MapRef.below_append _ _ _ hAnnotations)]
    rw [Store.read_prefix i M _ _ hAnnotations]
    have e := Store.read_new i M [[(E.IngressClassAnnotationKey, ingressClass)]] 0
    simp only [Nat.add_zero] at e
    rw [e]
    simp
  have f1 : FilterMapS { intent := i, maps := M ++ [[(E.IngressClassAnnotationKey, ingressClass)],
          UnionMaps [[(E.IngressClassAnnotationKey, ingressClass)],
            Store.read { intent := i, maps := M } i.Annotations]] }
      (some (M.length + 1)) E.ExcludedAnnotations.Has =
      ({ intent := i, maps := M ++ [[(E.IngressClassAnnotationKey, ingressClass)],
          UnionMaps [[(E.IngressClassAnnotationKey, ingressClass)],
            Store.read { intent := i, maps := M } i.Annotations],
          FilterMap (UnionMaps [[(E.IngressClassAnnotationKey, ingressClass)],
            Store.read { intent := i, maps := M } i.Annotations]) E.ExcludedAnnotations.Has] },
       some (M.length + 2)) := by
    rw [FilterMapS_eq i _ _ _ (by simp [MapRef.below])]
    rw [Store.read_new i M _ 1]
    simp
  have u2 : UnionMapsS { intent := i, maps := M ++ [[(E.IngressClassAnnotationKey, ingressClass)],
          UnionMaps [[(E.IngressClassAnnotationKey, ingressClass)],
            Store.read { intent := i, maps := M } i.Annotations],
          FilterMap (UnionMaps [[(E.IngressClassAnnotationKey, ingressClass)],
            Store.read { intent := i, maps := M } i.Annotations]) E.ExcludedAnnotations.Has,
          [(E.DomainMappingUIDLabelKey, i.UID), (E.DomainMappingNamespaceLabelKey, i.Namespace)]] }
      [i.Labels, some (M.length + 3)] =
      ({ intent := i, maps := M ++ [[(E.IngressClassAnnotationKey, ingressClass)],
          UnionMaps [[(E.IngressClassAnnotationKey, ingressClass)],
            Store.read { intent := i, maps := M } i.Annotations],
          FilterMap (UnionMaps [[(E.IngressClassAnnotationKey, ingressClass)],
            Store.read { intent := i, maps := M } i.Annotations]) E.ExcludedAnnotations.Has,
          [(E.DomainMappingUIDLabelKey, i.UID), (E.DomainMappingNamespaceLabelKey, i.Namespace)],
          UnionMaps [Store.read { intent := i, maps := M } i.Labels,
            [(E.DomainMappingUIDLabelKey, i.UID),
             (E.DomainMappingNamespaceLabelKey, i.Namespace)]]] },
       some (M.length + 4)) := by
    rw [UnionMapsS_pair i _ _ _ (MapRef.below_append _ _ _ hLabels) (by simp [MapRef.below])]
    rw [Store.read_prefix i M _ _ hLabels, Store.read_new i M _ 3]
    simp
  simp only [MakeIngressS, Store.alloc, u1, f1, List.append_assoc, List.cons_append,
    List.nil_append, List.length_append, List.length_cons, List.length_nil, Nat.zero_add,
    Nat.reduceAdd, u2, NewControllerRef]
  refine ⟨_, rfl, rfl, rfl, ?_⟩
  simp only [IngressS.deref, Store.read_new, List.getD_cons_succ, List.getD_cons_zero]
  rfl

/-! ## The intent after the call -/

/-- Claim C16: `MakeIngress` never mutates the intent it is given.  For every
store in which the two maps of the intent are nil or existing map objects,
the call returns, and in the store it leaves the struct of the intent (name,
namespace, UID and the two map references) is the one it was, the labels map
and the annotations map hold exactly the entries they held, and so does
every map object that existed before the call; the annotations and the
labels of the result are new map objects; and the result, with its maps read
from the store, is the result of `MakeIngress` on the intent as it was. -/
theorem MakeIngress_leaves_intent_unchanged {Challenge : Type} (E : Env Challenge)
    (st : Store) (backendServiceName hostName ingressClass httpOption : String)
    (tls : Option (List IngressTLS)) (cs : List Challenge)
    (hLabels : st.intent.Labels.below st.maps.length = true)
    (hAnnotations : st.intent.Annotations.below st.maps.length = true) :
    ∃ r st2,
      MakeIngressS E st backendServiceName hostName ingressClass httpOption tls cs
        = some (r, st2) ∧
      st2.intent = st.intent ∧
      st2.read st2.intent.Labels = st.read st.intent.Labels ∧
      st2.read st2.intent.Annotations = st.read st.intent.Annotations ∧
      st2.snapshot = st.snapshot ∧
      st2.maps.take st.maps.length = st.maps ∧
      MapRef.below r.ObjectMeta.Annotations st.maps.length = false ∧
      MapRef.below r.ObjectMeta.Labels st.maps.length = false ∧
      MakeIngress E (some st.snapshot) backendServiceName hostName ingressClass httpOption
        tls cs = some (r.deref st2) := by
  obtain ⟨r, hr, hA, hL, href⟩ := MakeIngressS_eq E st backendServiceName hostName
    ingressClass httpOption tls cs hLabels hAnnotations
  obtain ⟨i, M⟩ := st
  have hl : ∀ extra, Store.read { intent := i, maps := M ++ extra } i.Labels =
      Store.read { intent := i, maps := M } i.Labels :=
    fun extra => Store.read_prefix i M extra _ hLabels
  have ha : ∀ extra, Store.read { intent := i, maps := M ++ extra } i.Annotations =
      Store.read { intent := i, maps := M } i.Annotations :=
    fun extra => Store.read_prefix i M extra _ hAnnotations
  refine ⟨r, _, hr, rfl, hl _, ha _, ?_, ?_, ?_, ?_, href⟩
  · simp only [Store.snapshot, hl, ha]
  · simp
  · rw [hA]
    simp [MapRef.below]
  · rw [hL]
    simp [MapRef.below]

/-- Claim C16 at `spoofedStore`, the intent of which has the entries of
`spoofedIntent`: a reserved system key in its labels, an excluded key and the
ingress-class key in its annotations. -/
theorem MakeIngress_leaves_intent_unchanged_witness :
    spoofedStore.intent.Labels.below spoofedStore.maps.length = true ∧
    spoofedStore.intent.Annotations.below spoofedStore.maps.length = true ∧
    spoofedStore.snapshot = spoofedIntent ∧
    (MakeIngressS knativeEnv spoofedStore "svc" "svc.ns.svc.cluster.local" "istio" "Enabled"
      none pendingChallenges).map (fun p => p.2.snapshot) = some spoofedIntent ∧
    ∃ r st2,
      MakeIngressS knativeEnv spoofedStore "svc" "svc.ns.svc.cluster.local" "istio" "Enabled"
        none pendingChallenges = some (r, st2) ∧
      st2.intent = spoofedStore.intent ∧
      st2.read st2.intent.Labels = spoofedStore.read spoofedStore.intent.Labels ∧
      st2.read st2.intent.Annotations = spoofedStore.read spoofedStore.intent.Annotations ∧
      st2.snapshot = spoofedStore.snapshot ∧
      st2.maps.take spoofedStore.maps.length = spoofedStore.maps ∧
      MapRef.below r.ObjectMeta.Annotations spoofedStore.maps.length = false ∧
      MapRef.below r.ObjectMeta.Labels spoofedStore.maps.length = false ∧
      MakeIngress knativeEnv (some spoofedStore.snapshot) "svc" "svc.ns.svc.cluster.local"
        "istio" "Enabled" none pendingChallenges = some (r.deref st2) :=
  ⟨by decide, by decide, by decide, by decide,
    MakeIngress_leaves_intent_unchanged knativeEnv spoofedStore "svc"
      "svc.ns.svc.cluster.local" "istio" "Enabled" none pendingChallenges
      (by decide) (by decide)⟩

end Resources
